import Mathlib

/-!
Verification of the DUNS_Optimizer speed/cost optimizer against its
natural-language specification.

The Python source (`scripts/optimization.py`, `scripts/streamlit_app.py`) is
shallowly embedded over the real numbers: Python floats become `ℝ`, the
`numpy.arange` grid becomes an explicit list of reals (exact arithmetic), the
pandas first-occurrence `idxmin` becomes a structural scan keeping the earliest
minimum, and the PuLP affine-expression algebra used by the LP builder is
embedded just far enough to reproduce its division rule.
-/

/-- One entry of `OPERATION_FUEL_DATA`: base fuel rate (L/ha at the reference
speed) and the reference speed itself.  The textual fields (`range`,
`speed_range`, `remarks`) are display-only and carry no computational
content, so they are omitted. -/
structure OperationProfile where
  base : ℝ
  reference_speed : ℝ

/-- The fixed catalog `OPERATION_FUEL_DATA` from `scripts/optimization.py`
(operation name, numeric profile). -/
def OPERATION_FUEL_DATA : List (String × OperationProfile) :=
  [("Ploughing (Moldboard/Disc)", ⟨35, 5⟩),
   ("Harrowing (Disc/Tine)", ⟨15, 7⟩),
   ("Rotavating/Rotary Tillage", ⟨27.5, 4⟩),
   ("Ridging/Bed Formation", ⟨15, 6⟩),
   ("Planting/Seeding", ⟨5.5, 5⟩),
   ("Spraying", ⟨2, 8⟩),
   ("Fertilizer Spreading", ⟨2, 10⟩),
   ("Harvesting (Combine)", ⟨22.5, 4.5⟩),
   ("Transport (Field to Yard)", ⟨12.5, 15⟩)]

/-- `calculate_fuel_consumption` from `scripts/optimization.py`:
`fuel_per_hectare = base * (operating_speed / reference_speed) ** 1.5`.
The operation profile is passed directly (the Python code looks it up in
`OPERATION_FUEL_DATA` by name).  The function performs no input validation. -/
noncomputable def calculate_fuel_consumption (op : OperationProfile)
    (operating_speed : ℝ) : ℝ :=
  op.base * (operating_speed / op.reference_speed) ^ (1.5 : ℝ)

/-- The input aggregate of `find_optimal_speed` (spec §3 `FarmParameters`). -/
structure FarmParameters where
  target_hectares : ℝ
  tractor_count : ℝ
  min_speed : ℝ
  max_speed : ℝ
  working_hours : ℝ
  implement_width : ℝ
  field_efficiency : ℝ
  fuel_cost_per_liter : ℝ
  operation : OperationProfile
  speed_increment : ℝ

/-- The data-model invariants of §3: positive tractor count, target area,
working hours, implement width; efficiency in (0,1]; non-negative fuel cost;
positive speed bounds with `min ≤ max`; positive increment; and the
`OperationProfile` invariant (base rate ≥ 0, reference speed > 0). -/
def FarmParameters.Valid (p : FarmParameters) : Prop :=
  0 < p.tractor_count ∧ 0 < p.target_hectares ∧ 0 < p.working_hours ∧
  0 < p.implement_width ∧ 0 < p.field_efficiency ∧ p.field_efficiency ≤ 1 ∧
  0 ≤ p.fuel_cost_per_liter ∧ 0 < p.min_speed ∧ p.min_speed ≤ p.max_speed ∧
  0 < p.speed_increment ∧ 0 ≤ p.operation.base ∧ 0 < p.operation.reference_speed

/-- `numpy.arange(start, stop, step)` over exact reals: the values
`start + k*step` for `k = 0, …, ⌈(stop-start)/step⌉ - 1`. -/
noncomputable def arange (start stop step : ℝ) : List ℝ :=
  (List.range (⌈(stop - start) / step⌉).toNat).map (fun k : ℕ => start + (k : ℝ) * step)

/-- One row of the optimizer's result frame (spec §3 `SpeedCandidateResult`).
`area_achievable` is present only on infeasible rows, as in the source. -/
structure Candidate where
  speed : ℝ
  can_complete : Bool
  time_required_hours : ℝ
  fuel_required : ℝ
  total_cost : ℝ
  cost_per_hectare : ℝ
  total_hourly_capacity : ℝ
  total_daily_capacity : ℝ
  fuel_per_hectare : ℝ
  area_achievable : Option ℝ

/-- The loop body of `find_optimal_speed`: the result row built for one
sampled speed. -/
noncomputable def mkCandidate (p : FarmParameters) (speed : ℝ) : Candidate :=
  let hourly_capacity_per_tractor := speed * p.implement_width * p.field_efficiency / 10
  let total_hourly_capacity := hourly_capacity_per_tractor * p.tractor_count
  let total_daily_capacity := total_hourly_capacity * p.working_hours
  let fuel_per_hectare := calculate_fuel_consumption p.operation speed
  if total_daily_capacity ≥ p.target_hectares then
    let time_required := p.target_hectares / total_hourly_capacity
    let fuel_required := fuel_per_hectare * p.target_hectares
    let total_cost := fuel_required * p.fuel_cost_per_liter
    { speed := speed
      can_complete := true
      time_required_hours := time_required
      fuel_required := fuel_required
      total_cost := total_cost
      cost_per_hectare := total_cost / p.target_hectares
      total_hourly_capacity := total_hourly_capacity
      total_daily_capacity := total_daily_capacity
      fuel_per_hectare := fuel_per_hectare
      area_achievable := none }
  else
    let fuel_required := fuel_per_hectare * total_daily_capacity
    let total_cost := fuel_required * p.fuel_cost_per_liter
    { speed := speed
      can_complete := false
      time_required_hours := p.working_hours
      fuel_required := fuel_required
      total_cost := total_cost
      cost_per_hectare := if total_daily_capacity > 0 then total_cost / total_daily_capacity else 0
      total_hourly_capacity := total_hourly_capacity
      total_daily_capacity := total_daily_capacity
      fuel_per_hectare := fuel_per_hectare
      area_achievable := some total_daily_capacity }

/-- `feasible["total_cost"].idxmin()` followed by `.loc`: the first row
attaining the minimum `total_cost` (pandas `idxmin` returns the first
occurrence of the minimum). -/
noncomputable def selectMin : List Candidate → Option Candidate
  | [] => none
  | c :: rest =>
    match selectMin rest with
    | none => some c
    | some b => if b.total_cost < c.total_cost then some b else some c

/-- The record returned by `find_optimal_speed` (spec §3
`OptimizationOutcome`).  `optimal_speed` and `optimal_metrics` are `None`
whenever the status is not `"optimal"`. -/
structure OptimizationOutcome where
  status : String
  optimal_speed : Option ℝ
  optimal_metrics : Option Candidate
  all_results : List Candidate

/-- `find_optimal_speed` from `scripts/optimization.py`: sweep
`np.arange(min_speed, max_speed + speed_increment, speed_increment)`, build a
result row per speed, filter the feasible rows, and pick the first row of
minimum `total_cost`; with no feasible row the status is `"infeasible"` and
both optional fields are `None` (the source assigns `results_df.iloc[-1]` to
a local in that branch, but the returned record nulls it out). -/
noncomputable def find_optimal_speed (p : FarmParameters) : OptimizationOutcome :=
  let speeds := arange p.min_speed (p.max_speed + p.speed_increment) p.speed_increment
  let all_results := speeds.map (mkCandidate p)
  let feasible := all_results.filter (fun c => c.can_complete)
  match selectMin feasible with
  | some optimal =>
    { status := "optimal"
      optimal_speed := some optimal.speed
      optimal_metrics := some optimal
      all_results := all_results }
  | none =>
    { status := "infeasible"
      optimal_speed := none
      optimal_metrics := none
      all_results := all_results }

/-- The record returned by `calculate_tractors_for_speed` (spec §3
`FleetSizingResult`).  `tractors_needed` is the Python `int(...)` of the
(integer-valued) `np.ceil` result. -/
structure FleetSizingResult where
  tractors_needed : ℤ
  fuel_required : ℝ
  time_required : ℝ
  total_fuel_cost : ℝ
  fuel_per_hectare : ℝ
  hourly_capacity_per_tractor : ℝ
  total_hourly_capacity : ℝ

/-- `calculate_tractors_for_speed` from `scripts/optimization.py`.
`np.ceil(target/daily) if daily > 0 else 0`, then the hourly capacity of the
rounded-up fleet, `target/thc if thc > 0 else 0` for the time, and fuel scoped
to the target area. -/
noncomputable def calculate_tractors_for_speed (target_hectares desired_speed
    working_hours implement_width field_efficiency fuel_cost_per_liter : ℝ)
    (op : OperationProfile) : FleetSizingResult :=
  let hourly_capacity_per_tractor := desired_speed * implement_width * field_efficiency / 10
  let daily_capacity_per_tractor := hourly_capacity_per_tractor * working_hours
  let tractors_needed : ℤ :=
    if daily_capacity_per_tractor > 0 then ⌈target_hectares / daily_capacity_per_tractor⌉ else 0
  let total_hourly_capacity := hourly_capacity_per_tractor * (tractors_needed : ℝ)
  let time_required := if total_hourly_capacity > 0 then target_hectares / total_hourly_capacity else 0
  let fuel_per_hectare := calculate_fuel_consumption op desired_speed
  let fuel_required := fuel_per_hectare * target_hectares
  { tractors_needed := tractors_needed
    fuel_required := fuel_required
    time_required := time_required
    total_fuel_cost := fuel_required * fuel_cost_per_liter
    fuel_per_hectare := fuel_per_hectare
    hourly_capacity_per_tractor := hourly_capacity_per_tractor
    total_hourly_capacity := total_hourly_capacity }

/-- A PuLP `LpAffineExpression`, embedded as a list of (variable name,
coefficient) terms plus a constant.  Rationals suffice for the LP builder. -/
structure LpAffineExpression where
  terms : List (String × ℚ)
  const : ℚ
deriving Repr, DecidableEq

/-- PuLP division of an affine expression by another: PuLP raises
`TypeError("Expressions cannot be divided by a non-constant expression")`
whenever the divisor contains at least one variable term; otherwise it
divides coefficients and constant by the divisor's constant. -/
def LpAffineExpression.divExpr (e d : LpAffineExpression) :
    Except String LpAffineExpression :=
  if d.terms.length ≠ 0 then
    .error "Expressions cannot be divided by a non-constant expression"
  else
    .ok ⟨e.terms.map (fun t => (t.1, t.2 / d.const)), e.const / d.const⟩

/-- The objective expression `(fuel_cost * fuel_usage) / (hectares_covered + 1)`
built by `create_optimization_model` in `scripts/streamlit_app.py`:
`fuel_cost * fuel_usage` is the affine expression `fuel_cost·Fuel_Usage`, and
`hectares_covered + 1` is the affine expression `Hectares_Covered + 1`, so the
division goes through PuLP's expression-division rule above. -/
def create_optimization_model_objective (fuel_cost : ℚ) :
    Except String LpAffineExpression :=
  LpAffineExpression.divExpr
    ⟨[("Fuel_Usage", fuel_cost)], 0⟩
    ⟨[("Hectares_Covered", 1)], 1⟩

/-- The ordered candidate sequence returned in `all_results`. -/
noncomputable def allResults (p : FarmParameters) : List Candidate :=
  (arange p.min_speed (p.max_speed + p.speed_increment) p.speed_increment).map (mkCandidate p)

/-- Scenario-C/D style parameters: target 15 ha, 5 tractors, speed range
collapsed to the single point 5 km/h, 8 h day, 1.8 m width, 0.75 efficiency,
fuel at 1379, ploughing profile, increment 0.1. -/
noncomputable def pScenario : FarmParameters :=
  ⟨15, 5, 5, 5, 8, 9/5, 3/4, 1379, ⟨35, 5⟩, 1/10⟩

/-- Non-aligned speed range used to refute the floor-based length formula:
minSpeed 1, maxSpeed 2, increment 2/5 (the span 1 is not a whole number of
increments). -/
noncomputable def pC2 : FarmParameters :=
  ⟨100, 1, 1, 2, 1, 1, 1/2, 100, ⟨35, 5⟩, 2/5⟩

/-- Parameters whose single candidate covers only 0.25 ha against a 100 ha
target: every candidate is infeasible. -/
noncomputable def pC3 : FarmParameters :=
  ⟨100, 1, 5, 5, 1, 1, 1/2, 100, ⟨35, 5⟩, 1/10⟩

/-! ### Helper lemmas about the candidate scan `selectMin` -/

theorem selectMin_eq_none_iff (l : List Candidate) : selectMin l = none ↔ l = [] := by
  cases l with
  | nil => simp [selectMin]
  | cons c rest =>
    cases hr : selectMin rest with
    | none => simp [selectMin, hr]
    | some b =>
      simp only [selectMin, hr]
      constructor
      · intro h
        by_cases hlt : b.total_cost < c.total_cost
        · rw [if_pos hlt] at h; exact absurd h (by simp)
        · rw [if_neg hlt] at h; exact absurd h (by simp)
      · intro h; exact absurd h (by simp)

theorem selectMin_mem : ∀ {l : List Candidate} {b : Candidate},
    selectMin l = some b → b ∈ l := by
  intro l
  induction l with
  | nil => intro b h; simp [selectMin] at h
  | cons c rest ih =>
    intro b h
    cases hr : selectMin rest with
    | none =>
      simp only [selectMin, hr] at h
      obtain rfl : c = b := by injection h
      exact List.mem_cons_self _ _
    | some m =>
      simp only [selectMin, hr] at h
      by_cases hlt : m.total_cost < c.total_cost
      · rw [if_pos hlt] at h
        obtain rfl : m = b := by injection h
        exact List.mem_cons_of_mem _ (ih hr)
      · rw [if_neg hlt] at h
        obtain rfl : c = b := by injection h
        exact List.mem_cons_self _ _

theorem selectMin_le : ∀ {l : List Candidate} {b : Candidate},
    selectMin l = some b → ∀ c ∈ l, b.total_cost ≤ c.total_cost := by
  intro l
  induction l with
  | nil => intro b h; simp [selectMin] at h
  | cons c rest ih =>
    intro b h d hd
    rw [List.mem_cons] at hd
    cases hr : selectMin rest with
    | none =>
      simp only [selectMin, hr] at h
      obtain rfl : c = b := by injection h
      rcases hd with rfl | hd
      · exact le_refl _
      · exact absurd ((selectMin_eq_none_iff rest).mp hr ▸ hd) (List.not_mem_nil _)
    | some m =>
      simp only [selectMin, hr] at h
      by_cases hlt : m.total_cost < c.total_cost
      · rw [if_pos hlt] at h
        obtain rfl : m = b := by injection h
        rcases hd with rfl | hd
        · exact le_of_lt hlt
        · exact ih hr d hd
      · rw [if_neg hlt] at h
        obtain rfl : c = b := by injection h
        rcases hd with rfl | hd
        · exact le_refl _
        · exact le_trans (not_lt.mp hlt) (ih hr d hd)

theorem selectMin_first_speed : ∀ {l : List Candidate} {b : Candidate},
    l.Pairwise (fun a c => a.speed < c.speed) → selectMin l = some b →
    ∀ c ∈ l, c.total_cost = b.total_cost → b.speed ≤ c.speed := by
  intro l
  induction l with
  | nil => intro b _ h; simp [selectMin] at h
  | cons c rest ih =>
    intro b hp h d hd hcost
    rw [List.pairwise_cons] at hp
    rw [List.mem_cons] at hd
    cases hr : selectMin rest with
    | none =>
      simp only [selectMin, hr] at h
      obtain rfl : c = b := by injection h
      rcases hd with rfl | hd
      · exact le_refl _
      · exact absurd ((selectMin_eq_none_iff rest).mp hr ▸ hd) (List.not_mem_nil _)
    | some m =>
      simp only [selectMin, hr] at h
      by_cases hlt : m.total_cost < c.total_cost
      · rw [if_pos hlt] at h
        obtain rfl : m = b := by injection h
        rcases hd with rfl | hd
        · rw [hcost] at hlt; exact absurd hlt (lt_irrefl _)
        · exact ih hp.2 hr d hd hcost
      · rw [if_neg hlt] at h
        obtain rfl : c = b := by injection h
        rcases hd with rfl | hd
        · exact le_refl _
        · exact le_of_lt (hp.1 d hd)

/-! ### Helper lemmas about the speed grid `arange` -/

theorem arange_length (start stop step : ℝ) :
    (arange start stop step).length = (⌈(stop - start) / step⌉).toNat := by
  unfold arange
  rw [List.length_map, List.length_range]

theorem mem_arange {start stop step x : ℝ} :
    x ∈ arange start stop step ↔
      ∃ k : ℕ, k < (⌈(stop - start) / step⌉).toNat ∧ x = start + k * step := by
  unfold arange
  rw [List.mem_map]
  constructor
  · rintro ⟨k, hk, rfl⟩
    exact ⟨k, List.mem_range.mp hk, rfl⟩
  · rintro ⟨k, hk, rfl⟩
    exact ⟨k, List.mem_range.mpr hk, rfl⟩

theorem arange_pairwise (start stop step : ℝ) (h : 0 < step) :
    (arange start stop step).Pairwise (· < ·) := by
  unfold arange
  refine List.Pairwise.map _ ?_ (List.pairwise_lt_range _)
  intro a b hab
  have hcast : (a : ℝ) < (b : ℝ) := Nat.cast_lt.mpr hab
  have := mul_lt_mul_of_pos_right hcast h
  linarith

theorem arange_getLast (start stop step : ℝ)
    (h : 0 < (⌈(stop - start) / step⌉).toNat) :
    (arange start stop step).getLast? =
      some (start + ((⌈(stop - start) / step⌉).toNat - 1 : ℕ) * step) := by
  obtain ⟨m, hm⟩ : ∃ m, (⌈(stop - start) / step⌉).toNat = m + 1 :=
    ⟨(⌈(stop - start) / step⌉).toNat - 1, (Nat.succ_pred_eq_of_pos h).symm⟩
  unfold arange
  rw [hm, List.range_succ, List.map_append]
  simp

theorem arange_nonempty (start stop step : ℝ) (hstep : 0 < step)
    (hle : start ≤ stop - step) : 0 < (⌈(stop - start) / step⌉).toNat := by
  have h1 : (1 : ℝ) ≤ (stop - start) / step := by
    rw [le_div_iff₀ hstep]; linarith
  have h2 : (1 : ℤ) ≤ ⌈(stop - start) / step⌉ := by
    exact_mod_cast h1.trans (Int.le_ceil _)
  omega

/-! ### Helper lemmas about the loop body `mkCandidate` -/

theorem mkCandidate_of_feasible (p : FarmParameters) (s : ℝ)
    (h : s * p.implement_width * p.field_efficiency / 10 * p.tractor_count * p.working_hours ≥
      p.target_hectares) :
    mkCandidate p s =
      ⟨s, true,
        p.target_hectares / (s * p.implement_width * p.field_efficiency / 10 * p.tractor_count),
        calculate_fuel_consumption p.operation s * p.target_hectares,
        calculate_fuel_consumption p.operation s * p.target_hectares * p.fuel_cost_per_liter,
        calculate_fuel_consumption p.operation s * p.target_hectares * p.fuel_cost_per_liter /
          p.target_hectares,
        s * p.implement_width * p.field_efficiency / 10 * p.tractor_count,
        s * p.implement_width * p.field_efficiency / 10 * p.tractor_count * p.working_hours,
        calculate_fuel_consumption p.operation s, none⟩ := by
  unfold mkCandidate
  rw [if_pos h]

theorem mkCandidate_of_infeasible (p : FarmParameters) (s : ℝ)
    (h : ¬ (s * p.implement_width * p.field_efficiency / 10 * p.tractor_count * p.working_hours ≥
      p.target_hectares)) :
    mkCandidate p s =
      ⟨s, false, p.working_hours,
        calculate_fuel_consumption p.operation s *
          (s * p.implement_width * p.field_efficiency / 10 * p.tractor_count * p.working_hours),
        calculate_fuel_consumption p.operation s *
          (s * p.implement_width * p.field_efficiency / 10 * p.tractor_count * p.working_hours) *
          p.fuel_cost_per_liter,
        (if s * p.implement_width * p.field_efficiency / 10 * p.tractor_count * p.working_hours > 0
         then
           calculate_fuel_consumption p.operation s *
             (s * p.implement_width * p.field_efficiency / 10 * p.tractor_count *
               p.working_hours) * p.fuel_cost_per_liter /
             (s * p.implement_width * p.field_efficiency / 10 * p.tractor_count * p.working_hours)
         else 0),
        s * p.implement_width * p.field_efficiency / 10 * p.tractor_count,
        s * p.implement_width * p.field_efficiency / 10 * p.tractor_count * p.working_hours,
        calculate_fuel_consumption p.operation s,
        some (s * p.implement_width * p.field_efficiency / 10 * p.tractor_count *
          p.working_hours)⟩ := by
  unfold mkCandidate
  rw [if_neg h]

theorem mkCandidate_speed (p : FarmParameters) (s : ℝ) : (mkCandidate p s).speed = s := by
  by_cases h : s * p.implement_width * p.field_efficiency / 10 * p.tractor_count *
      p.working_hours ≥ p.target_hectares
  · rw [mkCandidate_of_feasible p s h]
  · rw [mkCandidate_of_infeasible p s h]

theorem mkCandidate_can_complete (p : FarmParameters) (s : ℝ) :
    (mkCandidate p s).can_complete = true ↔
      s * p.implement_width * p.field_efficiency / 10 * p.tractor_count * p.working_hours ≥
        p.target_hectares := by
  by_cases h : s * p.implement_width * p.field_efficiency / 10 * p.tractor_count *
      p.working_hours ≥ p.target_hectares
  · rw [mkCandidate_of_feasible p s h]
    simpa using h
  · rw [mkCandidate_of_infeasible p s h]
    simpa using h

/-! ### Unfolding lemmas for `find_optimal_speed` -/

theorem find_optimal_speed_all_results (p : FarmParameters) :
    (find_optimal_speed p).all_results = allResults p := by
  simp only [find_optimal_speed]
  split <;> rfl

theorem find_optimal_speed_of_some (p : FarmParameters) {b : Candidate}
    (h : selectMin ((allResults p).filter (fun c => c.can_complete)) = some b) :
    find_optimal_speed p = ⟨"optimal", some b.speed, some b, allResults p⟩ := by
  unfold allResults at h
  simp only [find_optimal_speed]
  rw [h]
  rfl

theorem find_optimal_speed_of_none (p : FarmParameters)
    (h : selectMin ((allResults p).filter (fun c => c.can_complete)) = none) :
    find_optimal_speed p = ⟨"infeasible", none, none, allResults p⟩ := by
  unfold allResults at h
  simp only [find_optimal_speed]
  rw [h]
  rfl

theorem allResults_pairwise_speed (p : FarmParameters) (hinc : 0 < p.speed_increment) :
    (allResults p).Pairwise (fun a c => a.speed < c.speed) := by
  unfold allResults
  refine List.Pairwise.map _ ?_
    (arange_pairwise p.min_speed (p.max_speed + p.speed_increment) p.speed_increment hinc)
  intro a b hab
  rw [mkCandidate_speed, mkCandidate_speed]
  exact hab

/-- C1: for every `FarmParameters` (with a positive speed increment) that has
at least one feasible candidate, `find_optimal_speed` returns status
`"optimal"` and selects, among the feasible candidates, one of minimum total
cost; when several feasible candidates share the minimum total cost, the
selected one has the lowest speed (equivalently, it is the first occurrence
in ascending enumeration order). -/
theorem C1_optimal_selects_min_cost_first (p : FarmParameters)
    (hinc : 0 < p.speed_increment)
    (hfeas : ∃ c ∈ (find_optimal_speed p).all_results, c.can_complete = true) :
    (find_optimal_speed p).status = "optimal" ∧
    ∃ b : Candidate,
      (find_optimal_speed p).optimal_metrics = some b ∧
      (find_optimal_speed p).optimal_speed = some b.speed ∧
      b ∈ (find_optimal_speed p).all_results ∧ b.can_complete = true ∧
      (∀ c ∈ (find_optimal_speed p).all_results, c.can_complete = true →
        b.total_cost ≤ c.total_cost) ∧
      (∀ c ∈ (find_optimal_speed p).all_results, c.can_complete = true →
        c.total_cost = b.total_cost → b.speed ≤ c.speed) := by
  rw [find_optimal_speed_all_results] at hfeas
  obtain ⟨c0, hc0mem, hc0⟩ := hfeas
  have hne : (allResults p).filter (fun c => c.can_complete) ≠ [] := by
    intro hnil
    have : c0 ∈ (allResults p).filter (fun c => c.can_complete) :=
      List.mem_filter.mpr ⟨hc0mem, hc0⟩
    rw [hnil] at this
    exact List.not_mem_nil _ this
  obtain ⟨b, hb⟩ : ∃ b, selectMin ((allResults p).filter (fun c => c.can_complete)) = some b := by
    cases hsel : selectMin ((allResults p).filter (fun c => c.can_complete)) with
    | none => exact absurd ((selectMin_eq_none_iff _).mp hsel) hne
    | some b => exact ⟨b, rfl⟩
  have hmemf : b ∈ (allResults p).filter (fun c => c.can_complete) := selectMin_mem hb
  rw [List.mem_filter] at hmemf
  rw [find_optimal_speed_of_some p hb]
  refine ⟨rfl, b, rfl, rfl, hmemf.1, hmemf.2, ?_, ?_⟩
  · intro c hcmem hcfeas
    exact selectMin_le hb c (List.mem_filter.mpr ⟨hcmem, hcfeas⟩)
  · intro c hcmem hcfeas hcost
    exact selectMin_first_speed
      (List.Pairwise.sublist (List.filter_sublist _) (allResults_pairwise_speed p hinc))
      hb c (List.mem_filter.mpr ⟨hcmem, hcfeas⟩) hcost

/-! ### Concrete parameter sets for witnesses -/

theorem arange_single (start stop step : ℝ) (h : ⌈(stop - start) / step⌉ = 1) :
    arange start stop step = [start] := by
  unfold arange
  rw [h]
  rw [show Int.toNat 1 = 0 + 1 from rfl, List.range_succ, List.range_zero]
  simp

theorem allResults_single (p : FarmParameters)
    (h : ⌈(p.max_speed + p.speed_increment - p.min_speed) / p.speed_increment⌉ = 1) :
    allResults p = [mkCandidate p p.min_speed] := by
  unfold allResults
  rw [arange_single _ _ _ h]
  rfl

theorem pScenario_grid : allResults pScenario = [mkCandidate pScenario 5] := by
  have h : ⌈(pScenario.max_speed + pScenario.speed_increment - pScenario.min_speed) /
      pScenario.speed_increment⌉ = 1 := by
    simp only [pScenario]
    rw [Int.ceil_eq_iff]
    norm_num
  have := allResults_single pScenario h
  simpa [pScenario] using this

theorem pScenario_feasible : (mkCandidate pScenario 5).can_complete = true := by
  rw [mkCandidate_can_complete]
  simp only [pScenario]
  norm_num

/-- Witness for C1: at `pScenario` the hypotheses hold and the optimizer
reports status `"optimal"`. -/
theorem C1_witness :
    (0 : ℝ) < pScenario.speed_increment ∧
    (∃ c ∈ (find_optimal_speed pScenario).all_results, c.can_complete = true) ∧
    (find_optimal_speed pScenario).status = "optimal" := by
  have hinc : (0 : ℝ) < pScenario.speed_increment := by norm_num [pScenario]
  have hfeas : ∃ c ∈ (find_optimal_speed pScenario).all_results, c.can_complete = true := by
    rw [find_optimal_speed_all_results, pScenario_grid]
    exact ⟨mkCandidate pScenario 5, List.mem_singleton.mpr rfl, pScenario_feasible⟩
  exact ⟨hinc, hfeas, (C1_optimal_selects_min_cost_first pScenario hinc hfeas).1⟩

theorem allResults_getLast (p : FarmParameters)
    (h : 0 < (⌈(p.max_speed + p.speed_increment - p.min_speed) / p.speed_increment⌉).toNat) :
    (allResults p).getLast? = some (mkCandidate p (p.min_speed +
      (((⌈(p.max_speed + p.speed_increment - p.min_speed) / p.speed_increment⌉).toNat - 1 : ℕ) :
        ℝ) * p.speed_increment)) := by
  obtain ⟨m, hm⟩ : ∃ m, (⌈(p.max_speed + p.speed_increment - p.min_speed) /
      p.speed_increment⌉).toNat = m + 1 :=
    ⟨_ - 1, (Nat.succ_pred_eq_of_pos h).symm⟩
  unfold allResults arange
  rw [hm, List.range_succ, List.map_append, List.map_append]
  simp

/-- C2 (amended): for `0 < minSpeed ≤ maxSpeed` and `speedIncrement > 0` the
candidate sequence enumerates speeds from `minSpeed` stepping by
`speedIncrement`; its length equals `⌈(maxSpeed-minSpeed)/increment⌉ + 1`
(which coincides with `⌊(maxSpeed-minSpeed)/increment⌋ + 1` exactly when the
span is a whole number of increments); the last candidate's speed lies in
`[maxSpeed, maxSpeed + increment]` — in particular within one increment of
`maxSpeed` and never below it, so the upper bound is never skipped — and
`minSpeed = maxSpeed` yields exactly one candidate. -/
theorem C2_grid_completeness (p : FarmParameters)
    (hmin : 0 < p.min_speed) (hle : p.min_speed ≤ p.max_speed)
    (hinc : 0 < p.speed_increment) :
    (((find_optimal_speed p).all_results.length : ℤ) =
      ⌈(p.max_speed - p.min_speed) / p.speed_increment⌉ + 1) ∧
    (∃ c, (find_optimal_speed p).all_results.getLast? = some c ∧
      p.max_speed ≤ c.speed ∧ c.speed ≤ p.max_speed + p.speed_increment ∧
      |c.speed - p.max_speed| ≤ p.speed_increment) ∧
    (p.min_speed = p.max_speed → (find_optimal_speed p).all_results.length = 1) := by
  have hi : p.speed_increment ≠ 0 := ne_of_gt hinc
  set q : ℝ := (p.max_speed - p.min_speed) / p.speed_increment with hqdef
  have hq0 : (0 : ℝ) ≤ q := div_nonneg (by linarith) (le_of_lt hinc)
  have hkey : (p.max_speed + p.speed_increment - p.min_speed) / p.speed_increment = q + 1 := by
    rw [hqdef]
    field_simp
    ring
  have hceil : ⌈(p.max_speed + p.speed_increment - p.min_speed) / p.speed_increment⌉ =
      ⌈q⌉ + 1 := by
    rw [hkey, Int.ceil_add_one]
  have hcnn : (0 : ℤ) ≤ ⌈q⌉ := Int.ceil_nonneg hq0
  have hlen : ((find_optimal_speed p).all_results.length : ℤ) = ⌈q⌉ + 1 := by
    rw [find_optimal_speed_all_results]
    unfold allResults
    rw [List.length_map, arange_length, hceil]
    omega
  have hmax : p.max_speed = p.min_speed + q * p.speed_increment := by
    rw [hqdef, div_mul_cancel₀ _ hi]
    ring
  refine ⟨hlen, ?_, ?_⟩
  · have hn : 0 < (⌈(p.max_speed + p.speed_increment - p.min_speed) /
        p.speed_increment⌉).toNat := by
      rw [hceil]
      omega
    have hcast : ((((⌈(p.max_speed + p.speed_increment - p.min_speed) /
        p.speed_increment⌉).toNat - 1 : ℕ)) : ℝ) = (⌈q⌉ : ℝ) := by
      have h1 : ((⌈(p.max_speed + p.speed_increment - p.min_speed) /
          p.speed_increment⌉).toNat - 1 : ℕ) = ⌈q⌉.toNat := by
        rw [hceil]
        omega
      rw [h1]
      exact_mod_cast congrArg (fun z : ℤ => (z : ℝ)) (Int.toNat_of_nonneg hcnn)
    refine ⟨_, by rw [find_optimal_speed_all_results]; exact allResults_getLast p hn, ?_, ?_, ?_⟩
    · rw [mkCandidate_speed, hcast]
      have := Int.le_ceil q
      nlinarith
    · rw [mkCandidate_speed, hcast]
      have := Int.ceil_lt_add_one q
      nlinarith
    · rw [mkCandidate_speed, hcast, abs_le]
      have h2 := Int.le_ceil q
      have h3 := Int.ceil_lt_add_one q
      constructor
      · nlinarith
      · nlinarith
  · intro hmm
    have hq : q = 0 := by
      rw [hqdef, hmm]
      simp
    have : ((find_optimal_speed p).all_results.length : ℤ) = 1 := by
      rw [hlen, hq]
      simp
    exact_mod_cast this

/-- Counterexample to C2 as stated: at minSpeed 1, maxSpeed 2, increment 2/5
the optimizer enumerates 4 candidates (speeds 1, 1.4, 1.8, 2.2) while the
claimed formula `⌊(maxSpeed-minSpeed)/increment⌋ + 1` predicts 3. -/
theorem C2_counterexample :
    (0 : ℝ) < pC2.min_speed ∧ pC2.min_speed ≤ pC2.max_speed ∧
    (0 : ℝ) < pC2.speed_increment ∧
    ((find_optimal_speed pC2).all_results.length : ℤ) = 4 ∧
    ⌊(pC2.max_speed - pC2.min_speed) / pC2.speed_increment⌋ + 1 = 3 ∧
    ((find_optimal_speed pC2).all_results.length : ℤ) ≠
      ⌊(pC2.max_speed - pC2.min_speed) / pC2.speed_increment⌋ + 1 := by
  have hlen : ((find_optimal_speed pC2).all_results.length : ℤ) = 4 := by
    rw [find_optimal_speed_all_results]
    unfold allResults
    rw [List.length_map, arange_length]
    have h4 : ⌈(pC2.max_speed + pC2.speed_increment - pC2.min_speed) /
        pC2.speed_increment⌉ = 4 := by
      simp only [pC2]
      rw [Int.ceil_eq_iff]
      norm_num
    rw [h4]
    rfl
  have hfl : ⌊(pC2.max_speed - pC2.min_speed) / pC2.speed_increment⌋ + 1 = 3 := by
    have h2 : ⌊(pC2.max_speed - pC2.min_speed) / pC2.speed_increment⌋ = 2 := by
      simp only [pC2]
      rw [Int.floor_eq_iff]
      norm_num
    rw [h2]
    norm_num
  refine ⟨by norm_num [pC2], by norm_num [pC2], by norm_num [pC2], hlen, hfl, ?_⟩
  rw [hlen, hfl]
  norm_num

/-- Witness for C2 (amended): the hypotheses hold at `pC2` and the length
formula from the amended claim evaluates there. -/
theorem C2_witness :
    (0 : ℝ) < pC2.min_speed ∧ pC2.min_speed ≤ pC2.max_speed ∧
    (0 : ℝ) < pC2.speed_increment ∧
    ((find_optimal_speed pC2).all_results.length : ℤ) =
      ⌈(pC2.max_speed - pC2.min_speed) / pC2.speed_increment⌉ + 1 := by
  have h1 : (0 : ℝ) < pC2.min_speed := by norm_num [pC2]
  have h2 : pC2.min_speed ≤ pC2.max_speed := by norm_num [pC2]
  have h3 : (0 : ℝ) < pC2.speed_increment := by norm_num [pC2]
  exact ⟨h1, h2, h3, (C2_grid_completeness pC2 h1 h2 h3).1⟩

/-! ### The infeasible branch (C3) -/

theorem getLast_max_of_pairwise : ∀ {l : List Candidate} {c : Candidate},
    l.Pairwise (fun a b => a.speed < b.speed) → l.getLast? = some c →
    ∀ d ∈ l, d.speed ≤ c.speed := by
  intro l
  induction l with
  | nil => intro c _ h; simp at h
  | cons a rest ih =>
    intro c hp hlast d hd
    rw [List.pairwise_cons] at hp
    rw [List.mem_cons] at hd
    cases rest with
    | nil =>
      simp only [List.getLast?_singleton, Option.some.injEq] at hlast
      rcases hd with rfl | hd
      · rw [hlast]
      · exact absurd hd (List.not_mem_nil _)
    | cons b t =>
      rw [List.getLast?_cons_cons] at hlast
      have hcmem : c ∈ b :: t := by
        have hne : (b :: t) ≠ [] := List.cons_ne_nil _ _
        rw [List.getLast?_eq_getLast_of_ne_nil hne] at hlast
        obtain rfl : (b :: t).getLast hne = c := by injection hlast
        exact List.getLast_mem hne
      rcases hd with rfl | hd
      · exact le_of_lt (hp.1 c hcmem)
      · exact ih hp.2 hlast d hd

theorem mkCandidate_area_achievable (p : FarmParameters) (s : ℝ)
    (h : ¬ (s * p.implement_width * p.field_efficiency / 10 * p.tractor_count * p.working_hours ≥
      p.target_hectares)) :
    (mkCandidate p s).area_achievable = some (mkCandidate p s).total_daily_capacity := by
  rw [mkCandidate_of_infeasible p s h]

/-- C3: when no enumerated candidate is feasible, `find_optimal_speed`
returns status `"infeasible"`, and the last entry of the returned candidate
sequence — the candidate at the highest speed in the range — reports
`area_achievable` equal to its own `total_daily_capacity`.  (Consistent with
the spec data model, `optimal_metrics` is only populated when the status is
`"optimal"`; the reference point is surfaced through the candidate
sequence.) -/
theorem C3_infeasible_surfaces_last (p : FarmParameters)
    (hle : p.min_speed ≤ p.max_speed) (hinc : 0 < p.speed_increment)
    (hinf : ∀ c ∈ (find_optimal_speed p).all_results, c.can_complete = false) :
    (find_optimal_speed p).status = "infeasible" ∧
    ∃ c, (find_optimal_speed p).all_results.getLast? = some c ∧
      (∀ d ∈ (find_optimal_speed p).all_results, d.speed ≤ c.speed) ∧
      c.area_achievable = some c.total_daily_capacity := by
  rw [find_optimal_speed_all_results] at hinf
  have hfilter : (allResults p).filter (fun c => c.can_complete) = [] := by
    rw [List.filter_eq_nil_iff]
    intro a ha
    rw [hinf a ha]
    simp
  have hsel : selectMin ((allResults p).filter (fun c => c.can_complete)) = none := by
    rw [hfilter]
    simp [selectMin]
  rw [find_optimal_speed_of_none p hsel]
  have hn : 0 < (⌈(p.max_speed + p.speed_increment - p.min_speed) /
      p.speed_increment⌉).toNat :=
    arange_nonempty _ _ _ hinc (by linarith)
  have hlast := allResults_getLast p hn
  refine ⟨rfl, _, hlast, ?_, ?_⟩
  · exact getLast_max_of_pairwise (allResults_pairwise_speed p hinc) hlast
  · set s : ℝ := p.min_speed +
      (((⌈(p.max_speed + p.speed_increment - p.min_speed) / p.speed_increment⌉).toNat - 1 : ℕ) :
        ℝ) * p.speed_increment with hsdef
    have hmem : mkCandidate p s ∈ allResults p := by
      unfold allResults
      refine List.mem_map.mpr ⟨s, ?_, rfl⟩
      rw [mem_arange]
      exact ⟨_ - 1, by omega, rfl⟩
    have hfalse : (mkCandidate p s).can_complete = false := hinf _ hmem
    have hnc : ¬ (s * p.implement_width * p.field_efficiency / 10 * p.tractor_count *
        p.working_hours ≥ p.target_hectares) := by
      intro hc
      have := (mkCandidate_can_complete p s).mpr hc
      rw [this] at hfalse
      exact absurd hfalse (by simp)
    exact mkCandidate_area_achievable p s hnc

theorem pC3_grid : allResults pC3 = [mkCandidate pC3 5] := by
  have h : ⌈(pC3.max_speed + pC3.speed_increment - pC3.min_speed) /
      pC3.speed_increment⌉ = 1 := by
    simp only [pC3]
    rw [Int.ceil_eq_iff]
    norm_num
  have := allResults_single pC3 h
  simpa [pC3] using this

theorem pC3_infeasible : (mkCandidate pC3 5).can_complete = false := by
  rw [mkCandidate_of_infeasible pC3 5 (by simp only [pC3]; norm_num)]

theorem C3_witness :
    pC3.min_speed ≤ pC3.max_speed ∧ (0 : ℝ) < pC3.speed_increment ∧
    (∀ c ∈ (find_optimal_speed pC3).all_results, c.can_complete = false) ∧
    (find_optimal_speed pC3).status = "infeasible" := by
  have h1 : pC3.min_speed ≤ pC3.max_speed := by norm_num [pC3]
  have h2 : (0 : ℝ) < pC3.speed_increment := by norm_num [pC3]
  have h3 : ∀ c ∈ (find_optimal_speed pC3).all_results, c.can_complete = false := by
    rw [find_optimal_speed_all_results, pC3_grid]
    intro c hc
    rw [List.mem_singleton] at hc
    rw [hc]
    exact pC3_infeasible
  exact ⟨h1, h2, h3, (C3_infeasible_surfaces_last pC3 h1 h2 h3).1⟩

/-! ### The per-candidate cost invariant (C10) -/

/-- C10: for every valid `FarmParameters` (positive tractor count, target
area, hours, width, efficiency, speeds and increment, per the spec data
model), every candidate row — feasible or not — satisfies
`cost_per_hectare = fuel_per_hectare * fuelCostPerLiter`: the reported cost
per hectare depends only on the sampled speed and the fuel price. -/
theorem C10_cost_per_hectare_invariant (p : FarmParameters) (hv : p.Valid) :
    ∀ c ∈ (find_optimal_speed p).all_results,
      c.cost_per_hectare = c.fuel_per_hectare * p.fuel_cost_per_liter := by
  obtain ⟨hcount, htarget, hhours, hwidth, heff, _, _, hmin, _, hinc, _, _⟩ := hv
  rw [find_optimal_speed_all_results]
  intro c hc
  unfold allResults at hc
  rw [List.mem_map] at hc
  obtain ⟨s, hs, rfl⟩ := hc
  rw [mem_arange] at hs
  obtain ⟨k, hk, rfl⟩ := hs
  set s : ℝ := p.min_speed + (k : ℝ) * p.speed_increment with hsdef
  have hspos : 0 < s := by
    have : (0 : ℝ) ≤ (k : ℝ) * p.speed_increment :=
      mul_nonneg (Nat.cast_nonneg _) (le_of_lt hinc)
    rw [hsdef]
    linarith
  have hT : p.target_hectares ≠ 0 := ne_of_gt htarget
  have htdc : 0 < s * p.implement_width * p.field_efficiency / 10 * p.tractor_count *
      p.working_hours := by
    have h1 : 0 < s * p.implement_width * p.field_efficiency / 10 :=
      div_pos (mul_pos (mul_pos hspos hwidth) heff) (by norm_num)
    exact mul_pos (mul_pos h1 hcount) hhours
  by_cases h : s * p.implement_width * p.field_efficiency / 10 * p.tractor_count *
      p.working_hours ≥ p.target_hectares
  · rw [mkCandidate_of_feasible p s h]
    show calculate_fuel_consumption p.operation s * p.target_hectares * p.fuel_cost_per_liter /
        p.target_hectares = calculate_fuel_consumption p.operation s * p.fuel_cost_per_liter
    field_simp
    ring
  · rw [mkCandidate_of_infeasible p s h]
    show (if s * p.implement_width * p.field_efficiency / 10 * p.tractor_count *
        p.working_hours > 0 then _ else _) = _
    rw [if_pos htdc]
    have htdc0 : s * p.implement_width * p.field_efficiency / 10 * p.tractor_count *
        p.working_hours ≠ 0 := ne_of_gt htdc
    field_simp
    ring

theorem find_optimal_speed_single_feasible (p : FarmParameters)
    (hone : ⌈(p.max_speed + p.speed_increment - p.min_speed) / p.speed_increment⌉ = 1)
    (hfeas : (mkCandidate p p.min_speed).can_complete = true) :
    (find_optimal_speed p).optimal_metrics = some (mkCandidate p p.min_speed) := by
  have hfil : (allResults p).filter (fun c => c.can_complete) =
      [mkCandidate p p.min_speed] := by
    rw [allResults_single p hone]
    simp [List.filter_cons, hfeas]
  have hsel : selectMin ((allResults p).filter (fun c => c.can_complete)) =
      some (mkCandidate p p.min_speed) := by
    rw [hfil]
    simp [selectMin]
  rw [find_optimal_speed_of_some p hsel]

/-- Witness for C10: at `pScenario` the invariant evaluates on the (single)
candidate of the sweep. -/
theorem C10_witness :
    pScenario.Valid ∧
    (mkCandidate pScenario 5).cost_per_hectare =
      (mkCandidate pScenario 5).fuel_per_hectare * pScenario.fuel_cost_per_liter := by
  have hv : pScenario.Valid := by
    norm_num [FarmParameters.Valid, pScenario]
  refine ⟨hv, ?_⟩
  apply C10_cost_per_hectare_invariant pScenario hv
  rw [find_optimal_speed_all_results, pScenario_grid]
  exact List.mem_singleton.mpr rfl

/-! ### Monotonicity of the selected cost in the target area (C9) -/

theorem optimal_metrics_selectMin (p : FarmParameters) {c : Candidate}
    (h : (find_optimal_speed p).optimal_metrics = some c) :
    selectMin ((allResults p).filter (fun d => d.can_complete)) = some c := by
  cases hsel : selectMin ((allResults p).filter (fun d => d.can_complete)) with
  | none =>
    rw [find_optimal_speed_of_none p hsel] at h
    exact absurd h (by simp)
  | some b =>
    rw [find_optimal_speed_of_some p hsel] at h
    obtain rfl : b = c := by injection h
    rfl

/-- C9: for valid `FarmParameters`, raising the target area (all other
inputs fixed) never lowers the selected total cost: if both runs return an
optimal candidate, the selected cost at the larger target dominates the
selected cost at the smaller one. -/
theorem C9_cost_monotone_in_target (p : FarmParameters) (T2 : ℝ)
    (hv : p.Valid) (hT : p.target_hectares ≤ T2)
    (c c2 : Candidate)
    (hopt : (find_optimal_speed p).optimal_metrics = some c)
    (hopt2 : (find_optimal_speed { p with target_hectares := T2 }).optimal_metrics = some c2) :
    c.total_cost ≤ c2.total_cost := by
  obtain ⟨hcount, htarget, hhours, hwidth, heff, _, hfc, hmin, _, hinc, hbase, href⟩ := hv
  have hsel := optimal_metrics_selectMin p hopt
  have hsel2 := optimal_metrics_selectMin _ hopt2
  have hmem2 := selectMin_mem hsel2
  rw [List.mem_filter] at hmem2
  obtain ⟨hmem2a, hfeas2⟩ := hmem2
  unfold allResults at hmem2a
  rw [List.mem_map] at hmem2a
  obtain ⟨s, hsmem, hc2eq⟩ := hmem2a
  have hgrid : s ∈ arange p.min_speed (p.max_speed + p.speed_increment) p.speed_increment :=
    hsmem
  have hcond2 : s * p.implement_width * p.field_efficiency / 10 * p.tractor_count *
      p.working_hours ≥ T2 := by
    have hcc : (mkCandidate { p with target_hectares := T2 } s).can_complete = true := by
      rw [hc2eq]
      exact hfeas2
    exact (mkCandidate_can_complete { p with target_hectares := T2 } s).mp hcc
  have hcond : s * p.implement_width * p.field_efficiency / 10 * p.tractor_count *
      p.working_hours ≥ p.target_hectares := le_trans hT hcond2
  have hmem1 : mkCandidate p s ∈ (allResults p).filter (fun d => d.can_complete) := by
    rw [List.mem_filter]
    refine ⟨?_, (mkCandidate_can_complete p s).mpr hcond⟩
    unfold allResults
    exact List.mem_map.mpr ⟨s, hgrid, rfl⟩
  have h1 : c.total_cost ≤ (mkCandidate p s).total_cost := selectMin_le hsel _ hmem1
  have hcost1 : (mkCandidate p s).total_cost =
      calculate_fuel_consumption p.operation s * p.target_hectares * p.fuel_cost_per_liter := by
    rw [mkCandidate_of_feasible p s hcond]
  have hcost2 : c2.total_cost =
      calculate_fuel_consumption p.operation s * T2 * p.fuel_cost_per_liter := by
    rw [← hc2eq, mkCandidate_of_feasible { p with target_hectares := T2 } s hcond2]
  have hs0 : 0 < s := by
    rw [mem_arange] at hgrid
    obtain ⟨k, _, rfl⟩ := hgrid
    have : (0 : ℝ) ≤ (k : ℝ) * p.speed_increment :=
      mul_nonneg (Nat.cast_nonneg _) (le_of_lt hinc)
    linarith
  have hfph : 0 ≤ calculate_fuel_consumption p.operation s := by
    unfold calculate_fuel_consumption
    refine mul_nonneg hbase (Real.rpow_nonneg ?_ _)
    positivity
  rw [hcost1] at h1
  rw [hcost2]
  have h2 : calculate_fuel_consumption p.operation s * p.target_hectares *
      p.fuel_cost_per_liter ≤
      calculate_fuel_consumption p.operation s * T2 * p.fuel_cost_per_liter :=
    mul_le_mul_of_nonneg_right (mul_le_mul_of_nonneg_left hT hfph) hfc
  linarith

/-- Witness for C9: raising the target from 15 to 20 ha at `pScenario`
(both runs optimal at the single candidate speed 5). -/
theorem C9_witness :
    pScenario.Valid ∧ pScenario.target_hectares ≤ 20 ∧
    (mkCandidate pScenario pScenario.min_speed).total_cost ≤
      (mkCandidate { pScenario with target_hectares := 20 }
        { pScenario with target_hectares := (20 : ℝ) }.min_speed).total_cost := by
  have hv : pScenario.Valid := by
    norm_num [FarmParameters.Valid, pScenario]
  have hT : pScenario.target_hectares ≤ 20 := by norm_num [pScenario]
  have hone : ⌈(pScenario.max_speed + pScenario.speed_increment - pScenario.min_speed) /
      pScenario.speed_increment⌉ = 1 := by
    simp only [pScenario]
    rw [Int.ceil_eq_iff]
    norm_num
  have hopt := find_optimal_speed_single_feasible pScenario hone pScenario_feasible
  have hone2 : ⌈({ pScenario with target_hectares := (20 : ℝ) }.max_speed +
      { pScenario with target_hectares := (20 : ℝ) }.speed_increment -
      { pScenario with target_hectares := (20 : ℝ) }.min_speed) /
      { pScenario with target_hectares := (20 : ℝ) }.speed_increment⌉ = 1 := hone
  have hfeas2 : (mkCandidate { pScenario with target_hectares := (20 : ℝ) }
      { pScenario with target_hectares := (20 : ℝ) }.min_speed).can_complete = true := by
    rw [mkCandidate_can_complete]
    simp only [pScenario]
    norm_num
  have hopt2 := find_optimal_speed_single_feasible _ hone2 hfeas2
  exact ⟨hv, hT, C9_cost_monotone_in_target pScenario 20 hv hT _ _ hopt hopt2⟩

/-! ### The fuel model (C4, C7) -/

/-- C4: for every catalog profile and positive speed the fuel model returns
`base * (speed / referenceSpeed) ^ 1.5`; at base 35, reference 5, speed 5 it
returns exactly 35; at base 5, reference 5, speed 10 it returns
`5 * (10/5) ^ 1.5`. -/
theorem C4_fuel_formula :
    (∀ op ∈ OPERATION_FUEL_DATA, ∀ s : ℝ, 0 < s →
      calculate_fuel_consumption op.2 s =
        op.2.base * (s / op.2.reference_speed) ^ (1.5 : ℝ)) ∧
    calculate_fuel_consumption ⟨35, 5⟩ 5 = 35 ∧
    calculate_fuel_consumption ⟨5, 5⟩ 10 = 5 * ((10 : ℝ) / 5) ^ (1.5 : ℝ) := by
  refine ⟨fun op _ s _ => rfl, ?_, rfl⟩
  unfold calculate_fuel_consumption
  rw [show (5 : ℝ) / 5 = 1 by norm_num, Real.one_rpow, mul_one]

/-- Witness for C4: the formula instantiated at the catalog's ploughing
profile and speed 5. -/
theorem C4_witness :
    ("Ploughing (Moldboard/Disc)", (⟨35, 5⟩ : OperationProfile)) ∈ OPERATION_FUEL_DATA ∧
    (0 : ℝ) < 5 ∧
    calculate_fuel_consumption (⟨35, 5⟩ : OperationProfile) 5 =
      (35 : ℝ) * ((5 : ℝ) / 5) ^ (1.5 : ℝ) := by
  have hmem : ("Ploughing (Moldboard/Disc)", (⟨35, 5⟩ : OperationProfile)) ∈
      OPERATION_FUEL_DATA := by
    unfold OPERATION_FUEL_DATA
    exact List.mem_cons_self _ _
  exact ⟨hmem, by norm_num, C4_fuel_formula.1 _ hmem 5 (by norm_num)⟩

/-- C7 (code behavior at the failing input): `calculate_fuel_consumption`
performs no input validation; at speed 0 it silently returns the number 0
(`base * (0/ref) ** 1.5 = 0`) instead of signaling a `DomainError` as the
spec demands for speed ≤ 0. -/
theorem C7_zero_speed_returns_zero :
    calculate_fuel_consumption ⟨35, 5⟩ 0 = 0 := by
  unfold calculate_fuel_consumption
  rw [zero_div, Real.zero_rpow (by norm_num), mul_zero]

/-! ### Fleet sizing (C5, C8) -/

/-- C5: for positive target, speed, hours and daily capacity per tractor,
`calculate_tractors_for_speed` returns `⌈target / dailyCapacityPerUnit⌉`
tractors, recomputes the total hourly capacity from that rounded-up integer
fleet, derives the time required from it (not from the fractional ideal),
and scopes the fuel to the target area. -/
theorem C5_fleet_sizing (target s hours width eff fc : ℝ) (op : OperationProfile)
    (htarget : 0 < target) (hs : 0 < s) (hhours : 0 < hours)
    (hdaily : 0 < s * width * eff / 10 * hours) :
    (calculate_tractors_for_speed target s hours width eff fc op).tractors_needed =
      ⌈target / (s * width * eff / 10 * hours)⌉ ∧
    (calculate_tractors_for_speed target s hours width eff fc op).total_hourly_capacity =
      s * width * eff / 10 * ((⌈target / (s * width * eff / 10 * hours)⌉ : ℤ) : ℝ) ∧
    (calculate_tractors_for_speed target s hours width eff fc op).time_required =
      target / (s * width * eff / 10 * ((⌈target / (s * width * eff / 10 * hours)⌉ : ℤ) : ℝ)) ∧
    (calculate_tractors_for_speed target s hours width eff fc op).fuel_required =
      calculate_fuel_consumption op s * target := by
  have hhourly : 0 < s * width * eff / 10 := by
    rcases mul_pos_iff.mp hdaily with ⟨h1, _⟩ | ⟨_, h2⟩
    · exact h1
    · exact absurd hhours (not_lt.mpr (le_of_lt h2))
  have hceil : (0 : ℤ) < ⌈target / (s * width * eff / 10 * hours)⌉ :=
    Int.ceil_pos.mpr (div_pos htarget hdaily)
  have hthc : 0 < s * width * eff / 10 *
      ((⌈target / (s * width * eff / 10 * hours)⌉ : ℤ) : ℝ) :=
    mul_pos hhourly (by exact_mod_cast hceil)
  simp only [calculate_tractors_for_speed]
  rw [if_pos hdaily, if_pos hthc]
  exact ⟨rfl, rfl, rfl, trivial⟩

/-- Witness for C5: 15 ha at 5 km/h, 8 h day, 1.8 m width, 0.75 efficiency
(daily capacity 5.4 ha per tractor, so 3 tractors). -/
theorem C5_witness :
    (0 : ℝ) < 15 ∧ (0 : ℝ) < 5 ∧ (0 : ℝ) < 8 ∧
    (0 : ℝ) < 5 * (9 / 5) * (3 / 4) / 10 * 8 ∧
    (calculate_tractors_for_speed 15 5 8 (9 / 5) (3 / 4) 1379 ⟨35, 5⟩).tractors_needed =
      ⌈(15 : ℝ) / (5 * (9 / 5) * (3 / 4) / 10 * 8)⌉ := by
  refine ⟨by norm_num, by norm_num, by norm_num, by norm_num, ?_⟩
  exact (C5_fleet_sizing 15 5 8 (9 / 5) (3 / 4) 1379 ⟨35, 5⟩
    (by norm_num) (by norm_num) (by norm_num) (by norm_num)).1

/-- C8 (code behavior at the failing input): with implement width 0 the
daily capacity per tractor is 0 and `calculate_tractors_for_speed` returns
0 tractors and time 0, instead of signaling a `DomainError` for the
undefined sizing as the spec demands. -/
theorem C8_zero_capacity_returns_zero_tractors :
    (calculate_tractors_for_speed 100 5 8 0 (3 / 4) 1379 ⟨35, 5⟩).tractors_needed = 0 ∧
    (calculate_tractors_for_speed 100 5 8 0 (3 / 4) 1379 ⟨35, 5⟩).time_required = 0 := by
  have hdaily : ¬ ((5 : ℝ) * 0 * (3 / 4) / 10 * 8 > 0) := by norm_num
  simp only [calculate_tractors_for_speed]
  rw [if_neg hdaily]
  have hthc : ¬ ((5 : ℝ) * 0 * (3 / 4) / 10 * ((0 : ℤ) : ℝ) > 0) := by norm_num
  rw [if_neg hthc]
  exact ⟨rfl, rfl⟩

/-! ### The LP builder (C6) -/

/-- C6 (code behavior): building the objective
`(fuel_cost * fuel_usage) / (hectares_covered + 1)` in
`create_optimization_model` divides an affine expression by an expression
that still contains the variable `Hectares_Covered`; PuLP rejects this with
`TypeError("Expressions cannot be divided by a non-constant expression")`,
so the model is never constructed and no solution exists to compare with
the integer-enumeration oracle. -/
theorem C6_objective_division_fails :
    create_optimization_model_objective 1379 =
      Except.error "Expressions cannot be divided by a non-constant expression" := by
  rfl
